import Mathlib

/-
Verification of the pytext data-batching pipeline (src/pytext/data/data.py).

Shallow embedding conventions:
* A Python row (dict) is an association list `Row K V = List (K × V)`;
  `Row.get` mirrors `dict.get` (returning `none` for an absent key).
* `itertools.zip_longest(*[iter(xs)] * n)` followed by the source's
  `if ex is not None` filter is the chunking of the input into consecutive
  groups of `n` (`chunks`); genuine `None` elements of the input are
  `none : Option α`, and the `zip_longest` fill value is filtered by the
  same test as genuine `None`s, so padding the trailing group is a no-op.
* `list.sort(key=k, reverse=True)` (CPython: a stable descending sort) is
  embedded as `List.insertionSort` with the relation `key b ≤ key a`,
  which is exactly the stable descending sort by `key`.
* `random.shuffle` draws from a process-wide random source with no seeding
  contract; the embedding takes the applied permutation as an explicit
  function parameter (`shuffleRows` / `shuffleIdx`) to be instantiated per
  scenario (identity for "shuffling disabled").
* Fallible Python code (statements that may raise) is embedded with
  `Except`; a generator killed by a raise is a pull-stream that ends with
  an `Except.error` element.
* Python ints are unbounded, so no modular arithmetic is needed; sizes are
  `Nat` where the source guarantees non-negativity and `Int` where the
  configuration surface admits negative values.
-/

/-- Training stage enum (`pytext.common.constants.Stage`). -/
inductive Stage : Type
  | TRAIN
  | EVAL
  | TEST
deriving DecidableEq, Repr

/-- Python-level error values surfaced by the embedded code. -/
inductive PyErr : Type
  | keyError
deriving DecidableEq, Repr

/-- Ceiling division on naturals: `math.ceil(a / b)` for non-negative ints
and positive divisor. -/
def cdiv (a b : Nat) : Nat := (a + b - 1) / b

theorem cdiv_zero_left (n : Nat) : cdiv 0 n = 0 := by
  rcases n with _ | k
  · rfl
  · show (0 + (k + 1) - 1) / (k + 1) = 0
    exact Nat.div_eq_of_lt (by omega)

theorem cdiv_eq_one {m n : Nat} (h1 : 0 < m) (h2 : m ≤ n) : cdiv m n = 1 := by
  show (m + n - 1) / n = 1
  refine Nat.div_eq_of_lt_le (by omega) (by omega)

theorem cdiv_pos {m n : Nat} (hm : 0 < m) (hn : 0 < n) : 0 < cdiv m n :=
  (Nat.one_le_div_iff hn).mpr (by omega)

theorem cdiv_add_self {m n : Nat} (hn : 0 < n) : cdiv (m + n) n = cdiv m n + 1 := by
  show (m + n + n - 1) / n = (m + n - 1) / n + 1
  have h : m + n + n - 1 = (m + n - 1) + n := by omega
  rw [h, Nat.add_div_right _ hn]

theorem cdiv_sub {m n : Nat} (hn : 0 < n) (h : n < m) :
    cdiv m n = cdiv (m - n) n + 1 := by
  have h2 : m - n + n = m := by omega
  rw [← @cdiv_add_self (m - n) n hn, h2]

theorem mul_cdiv_le {m n : Nat} (_hn : 0 < n) : n * cdiv m n ≤ m + n - 1 := by
  show n * ((m + n - 1) / n) ≤ m + n - 1
  rw [Nat.mul_comm]
  exact Nat.div_mul_le_self _ _

/-- Fuel-driven core of `chunks` (structural recursion on the fuel, so that
the kernel can evaluate it on concrete inputs). -/
def chunksF (n : Nat) : Nat → List α → List (List α)
  | _, [] => []
  | 0, _ :: _ => []
  | fuel + 1, x :: xs =>
    if n = 0 then []
    else (x :: xs).take n :: chunksF n fuel ((x :: xs).drop n)

/-- Consecutive groups of size `n` taken off the front of `l`; the trailing
group may be shorter.  This is `itertools.zip_longest(*[iter(l)] * n)` with
the fill entries removed.  `chunks 0 l = []`: `zip_longest()` over an empty
tuple of iterators stops immediately (and so does `[iter(l)] * g` for a
negative `g`). -/
def chunks (n : Nat) (l : List α) : List (List α) := chunksF n l.length l

theorem chunksF_congr (n : Nat) (hn : n ≠ 0) :
    ∀ (f f' : Nat) (l : List α), l.length ≤ f → l.length ≤ f' →
      chunksF n f l = chunksF n f' l := by
  intro f
  induction f with
  | zero =>
    intro f' l hf hf'
    have : l = [] := List.eq_nil_of_length_eq_zero (Nat.le_zero.mp hf)
    subst this
    cases f' <;> simp [chunksF]
  | succ g ih =>
    intro f' l hf hf'
    rcases l with _ | ⟨x, xs⟩
    · cases f' <;> simp [chunksF]
    · rcases f' with _ | g'
      · simp at hf'
      · simp only [chunksF, if_neg hn]
        congr 1
        simp only [List.length_cons] at hf hf'
        apply ih
        · simp only [List.length_drop, List.length_cons]
          omega
        · simp only [List.length_drop, List.length_cons]
          omega

theorem chunks_nil (n : Nat) : chunks n ([] : List α) = [] := rfl

theorem chunks_zero (l : List α) : chunks 0 l = [] := by
  cases l <;> rfl

theorem chunks_cons (n : Nat) (hn : n ≠ 0) (l : List α) (hl : l ≠ []) :
    chunks n l = l.take n :: chunks n (l.drop n) := by
  rcases l with _ | ⟨x, xs⟩
  · exact absurd rfl hl
  · show chunksF n (x :: xs).length (x :: xs) = _
    simp only [List.length_cons, chunksF, if_neg hn]
    congr 1
    apply chunksF_congr n hn
    · simp only [List.length_drop, List.length_cons]
      omega
    · exact Nat.le_refl _

/-- Strong induction along the recursion structure of `chunks`. -/
theorem chunks_rec (n : Nat) (hn : 0 < n) {motive : List α → Prop}
    (base : motive ([] : List α))
    (step : ∀ l : List α, l ≠ [] → motive (l.drop n) → motive l) :
    ∀ l : List α, motive l := by
  have H : ∀ (len : Nat) (l : List α), l.length = len → motive l := by
    intro len
    induction len using Nat.strong_induction_on with
    | _ len ih =>
      intro l hlen
      rcases eq_or_ne l [] with rfl | hl
      · exact base
      · refine step l hl (ih ((l.drop n).length) ?_ _ rfl)
        have := List.length_pos.mpr hl
        simp only [List.length_drop]
        omega
  exact fun l => H l.length l rfl

theorem flatten_chunks (n : Nat) (hn : 0 < n) (l : List α) :
    (chunks n l).flatten = l := by
  induction l using chunks_rec n hn with
  | base => rfl
  | step l hl ih =>
    rw [chunks_cons n (by omega) l hl]
    simp [ih]

theorem length_chunks (n : Nat) (hn : 0 < n) (l : List α) :
    (chunks n l).length = cdiv l.length n := by
  induction l using chunks_rec n hn with
  | base => simp [chunks_nil, cdiv_zero_left]
  | step l hl ih =>
    rw [chunks_cons n (by omega) l hl]
    simp only [List.length_cons, ih, List.length_drop]
    have hlen : 0 < l.length := List.length_pos.mpr hl
    rcases Nat.lt_or_ge n l.length with hgt | hle
    · rw [← cdiv_sub hn hgt]
    · have h1 : l.length - n = 0 := by omega
      rw [h1, cdiv_zero_left, cdiv_eq_one hlen hle]

theorem mem_chunks_ne_nil (n : Nat) (hn : 0 < n) (l : List α) :
    ∀ b ∈ chunks n l, b ≠ [] := by
  induction l using chunks_rec n hn with
  | base => simp [chunks_nil]
  | step l hl ih =>
    rw [chunks_cons n (by omega) l hl]
    intro b hb
    rcases List.mem_cons.mp hb with rfl | hb2
    · have := List.length_pos.mpr hl
      have h2 : 0 < (l.take n).length := by
        simp only [List.length_take]
        omega
      exact List.length_pos.mp h2
    · exact ih b hb2

theorem mem_dropLast_chunks (n : Nat) (hn : 0 < n) (l : List α) :
    ∀ b ∈ (chunks n l).dropLast, b.length = n := by
  induction l using chunks_rec n hn with
  | base => simp [chunks_nil]
  | step l hl ih =>
    rw [chunks_cons n (by omega) l hl]
    rcases hrest : chunks n (l.drop n) with _ | ⟨r, rs⟩
    · simp
    · intro b hb
      rw [List.dropLast_cons_of_ne_nil (by simp)] at hb
      rcases List.mem_cons.mp hb with rfl | hb
      · have hd : l.drop n ≠ [] := by
          intro hd0
          rw [hd0, chunks_nil] at hrest
          exact absurd hrest (by simp)
        have : n < l.length := by
          have := List.length_pos.mpr hd
          simp only [List.length_drop] at this
          omega
        simp only [List.length_take]
        omega
      · rw [← hrest] at hb
        exact ih b hb

theorem getLast_chunks (n : Nat) (hn : 0 < n) (l : List α) :
    ∀ b, (chunks n l).getLast? = some b →
      b.length = l.length - n * (cdiv l.length n - 1) := by
  induction l using chunks_rec n hn with
  | base => simp [chunks_nil]
  | step l hl ih =>
    rw [chunks_cons n (by omega) l hl]
    intro b hb
    have hlen : 0 < l.length := List.length_pos.mpr hl
    rcases hrest : chunks n (l.drop n) with _ | ⟨r, rs⟩
    · rw [hrest] at hb
      simp only [List.getLast?_singleton, Option.some_inj] at hb
      subst hb
      have hd : l.drop n = [] := by
        by_contra hd0
        rw [chunks_cons n (by omega) _ hd0] at hrest
        exact absurd hrest (by simp)
      have hle : l.length ≤ n := by
        have := congrArg List.length hd
        simp only [List.length_drop, List.length_nil] at this
        omega
      rw [cdiv_eq_one hlen hle]
      simp only [List.length_take]
      omega
    · rw [hrest, List.getLast?_cons_cons] at hb
      rw [← hrest] at hb
      have hres := ih b hb
      have hd : l.drop n ≠ [] := by
        intro hd0
        rw [hd0, chunks_nil] at hrest
        exact absurd hrest (by simp)
      have hgt : n < l.length := by
        have := List.length_pos.mpr hd
        simp only [List.length_drop] at this
        omega
      rw [cdiv_sub hn hgt]
      simp only [List.length_drop] at hres
      have hc : 0 < cdiv (l.length - n) n := cdiv_pos (by omega) hn
      obtain ⟨d, hd2⟩ : ∃ d, cdiv (l.length - n) n = d + 1 := ⟨_, (Nat.succ_pred_eq_of_pos hc).symm⟩
      rw [hd2] at hres ⊢
      have hb2 : n * cdiv (l.length - n) n ≤ (l.length - n) + n - 1 := mul_cdiv_le hn
      rw [hd2, Nat.mul_succ] at hb2
      simp only [Nat.add_sub_cancel, Nat.mul_succ] at hres ⊢
      omega

theorem chunks_map (n : Nat) (f : α → β) (l : List α) :
    chunks n (l.map f) = (chunks n l).map (List.map f) := by
  rcases Nat.eq_zero_or_pos n with rfl | hn
  · simp [chunks_zero]
  · induction l using chunks_rec n hn with
    | base => simp [chunks_nil]
    | step l hl ih =>
      rw [chunks_cons n (by omega) l hl,
        chunks_cons n (by omega) (l.map f) (by simpa using hl)]
      simp only [List.map_cons, ← List.map_take, ← List.map_drop, ih]

theorem chunks_append (n : Nat) (hn : 0 < n) (l₂ : List α) :
    ∀ l₁ : List α, n ∣ l₁.length →
      chunks n (l₁ ++ l₂) = chunks n l₁ ++ chunks n l₂ := by
  refine chunks_rec n hn ?_ ?_
  · intro _
    simp [chunks_nil]
  · intro l₁ hl₁ ih hd
    have hlen : 0 < l₁.length := List.length_pos.mpr hl₁
    have hnle : n ≤ l₁.length := Nat.le_of_dvd hlen hd
    have hcons : l₁ ++ l₂ ≠ [] := by simp [hl₁]
    rw [chunks_cons n (by omega) _ hcons, chunks_cons n (by omega) l₁ hl₁]
    have h0 : n - l₁.length = 0 := by omega
    have htake : (l₁ ++ l₂).take n = l₁.take n := by
      rw [List.take_append_eq_append_take, h0, List.take_zero, List.append_nil]
    have hdrop : (l₁ ++ l₂).drop n = l₁.drop n ++ l₂ := by
      rw [List.drop_append_eq_append_drop, h0, List.drop_zero]
    rw [htake, hdrop, List.cons_append]
    congr 1
    refine ih ?_
    simp only [List.length_drop]
    exact Nat.dvd_sub' hd dvd_rfl

theorem chunks_flatMap (B P : Nat) (hB : 0 < B) (hP : 0 < P) (l : List α) :
    (chunks (B * P) l).flatMap (chunks B) = chunks B l := by
  have hBP : 0 < B * P := Nat.mul_pos hB hP
  induction l using chunks_rec (B * P) hBP with
  | base => simp [chunks_nil]
  | step l hl ih =>
    rw [chunks_cons (B * P) (by omega) l hl]
    simp only [List.flatMap_cons, ih]
    rcases le_or_lt l.length (B * P) with hle | hgt
    · rw [List.take_of_length_le hle, List.drop_eq_nil_of_le hle, chunks_nil]
      simp
    · have hdvd : B ∣ (l.take (B * P)).length := by
        rw [List.length_take, Nat.min_eq_left (by omega)]
        exact Dvd.intro P rfl
      conv_rhs => rw [← List.take_append_drop (B * P) l]
      rw [chunks_append B hB (l.drop (B * P)) (l.take (B * P)) hdvd]

theorem chunks_eq_rangeMap (n : Nat) (hn : 0 < n) (l : List α) :
    chunks n l =
      (List.range (cdiv l.length n)).map fun i => (l.drop (n * i)).take n := by
  induction l using chunks_rec n hn with
  | base => simp [chunks_nil, cdiv_zero_left]
  | step l hl ih =>
    rw [chunks_cons n (by omega) l hl]
    have hlen : 0 < l.length := List.length_pos.mpr hl
    rcases le_or_lt l.length n with hle | hgt
    · rw [cdiv_eq_one hlen hle]
      have hd : l.drop n = [] := List.drop_eq_nil_of_le hle
      rw [hd, chunks_nil]
      have hr1 : List.range 1 = [0] := rfl
      rw [hr1]
      simp only [List.map_cons, List.map_nil, Nat.mul_zero, List.drop_zero]
    · rw [cdiv_sub hn hgt, List.range_succ_eq_map, List.map_cons, List.map_map, ih]
      simp only [List.length_drop]
      refine List.cons_eq_cons.mpr ⟨?_, ?_⟩
      · rw [Nat.mul_zero, List.drop_zero]
      · refine List.map_congr_left ?_
        intro i _
        simp only [Function.comp_apply, List.drop_drop, Nat.mul_succ]
        rw [Nat.add_comm n (n * i)]

theorem filterMap_id_map_some (l : List α) : (l.map some).filterMap id = l := by
  simp

/-- CPython `list.sort(key=key, reverse=True)`: a stable sort into
non-increasing key order.  `List.insertionSort` with the relation
`key b ≤ key a` is stable and sorts descending by `key`, so it is
extensionally the same function. -/
def pySortDesc (key : α → Int) (l : List α) : List α :=
  List.insertionSort (fun a b => key b ≤ key a) l

theorem pairwise_pySortDesc (key : α → Int) (l : List α) :
    List.Pairwise (fun a b => key b ≤ key a) (pySortDesc key l) := by
  have ht : IsTotal α fun a b => key b ≤ key a := ⟨fun a b => le_total (key b) (key a)⟩
  have htr : IsTrans α fun a b => key b ≤ key a :=
    ⟨fun a b c h1 h2 => le_trans h2 h1⟩
  exact List.sorted_insertionSort _ l

theorem perm_pySortDesc (key : α → Int) (l : List α) :
    (pySortDesc key l).Perm l :=
  List.perm_insertionSort _ l

/-- `Batcher._group_iter` (data.py lines 65-71): read `group_size` items at
a time via `zip_longest` over `group_size` aliases of one iterator, drop
`None` entries (both fill values and genuine `None` elements of the
input), and sort each group descending by `sort_key` when one is given. -/
def Batcher._group_iter (group_size : Nat) (sort_key : Option (α → Int))
    (iterable : List (Option α)) : List (List α) :=
  (chunks group_size iterable).map fun group =>
    let g := group.filterMap id
    match sort_key with
    | none => g
    | some key => pySortDesc key g

/-- A Python row: a dict from field name to value, as an association list. -/
abbrev Row (K V : Type) : Type := List (K × V)

/-- `dict.get(key)`: the value at `key`, or `none` when absent. -/
def Row.get [DecidableEq K] (d : Row K V) (key : K) : Option V :=
  (List.find? (fun p => decide (p.1 = key)) d).map Prod.snd

/-- Iterating a Python dict yields its keys. -/
def Row.keys (d : Row K V) : List K :=
  List.map Prod.fst d

/-- `zip_dicts` (data.py lines 140-146): union of the rows' key sets, then
one column per key holding `d.get(key)` for each row in input order
(`none` is the absent-marker). -/
def zip_dicts [DecidableEq K] (dicts : List (Row K V)) :
    List (K × List (Option V)) :=
  let all_keys := (dicts.flatMap Row.keys).dedup
  all_keys.map fun key => (key, dicts.map fun d => Row.get d key)

/-- `Batcher.batchify` at the row level (before `zip_dicts`): plain
grouping by `batch_size`. -/
def Batcher.batchifyRows (batch_size : Nat) (sort_key : Option (α → Int))
    (iterable : List (Option α)) : List (List α) :=
  Batcher._group_iter batch_size sort_key iterable

/-- `Batcher.batchify` (data.py lines 56-63): group rows by batch size and
yield `zip_dicts` of each group. -/
def Batcher.batchify [DecidableEq K] (batch_size : Nat)
    (sort_key : Option (Row K V → Int)) (iterable : List (Option (Row K V))) :
    List (List (K × List (Option V))) :=
  (Batcher.batchifyRows batch_size sort_key iterable).map zip_dicts

/-- Per-pool step of `PoolingBatcher.batchify` (data.py lines 118-125):
`batch_indices = range(math.ceil(len(pool) / batch_size))`; with a sort key
the indices are shuffled, otherwise the pool rows are; each index yields
the slice `pool[batch_size * i : batch_size * (i + 1)]`. -/
def PoolingBatcher.poolBatches (batch_size : Nat)
    (shuffleRows : List α → List α) (shuffleIdx : List Nat → List Nat)
    (hasSortKey : Bool) (pool : List α) : List (List α) :=
  let batch_indices := List.range (cdiv pool.length batch_size)
  if hasSortKey then
    (shuffleIdx batch_indices).map fun i =>
      (pool.drop (batch_size * i)).take batch_size
  else
    let pool2 := shuffleRows pool
    batch_indices.map fun i =>
      (pool2.drop (batch_size * i)).take batch_size

/-- `PoolingBatcher.batchify` at the row level (data.py lines 103-125):
pools of `batch_size * pool_num_batches` rows (sorted inside
`_group_iter` when a sort key is given), each sliced into batches. -/
def PoolingBatcher.batchifyRows (batch_size pool_num_batches : Nat)
    (shuffleRows : List α → List α) (shuffleIdx : List Nat → List Nat)
    (sort_key : Option (α → Int)) (iterable : List (Option α)) :
    List (List α) :=
  (Batcher._group_iter (batch_size * pool_num_batches) sort_key iterable).flatMap
    (PoolingBatcher.poolBatches batch_size shuffleRows shuffleIdx sort_key.isSome)

/-- `PoolingBatcher.batchify`: row-level pooling and slicing followed by
`zip_dicts` on each batch. -/
def PoolingBatcher.batchify [DecidableEq K] (batch_size pool_num_batches : Nat)
    (shuffleRows : List (Row K V) → List (Row K V))
    (shuffleIdx : List Nat → List Nat) (sort_key : Option (Row K V → Int))
    (iterable : List (Option (Row K V))) : List (List (K × List (Option V))) :=
  (PoolingBatcher.batchifyRows batch_size pool_num_batches shuffleRows shuffleIdx
    sort_key iterable).map zip_dicts

theorem group_iter_none_map_some (gs : Nat) (l : List α) :
    Batcher._group_iter gs none (l.map some) = chunks gs l := by
  show (chunks gs (l.map some)).map (fun group => group.filterMap id) = chunks gs l
  rw [chunks_map, List.map_map]
  have h : ((fun group : List (Option α) => group.filterMap id) ∘ List.map some)
      = fun c : List α => c := by
    funext c
    simp
  rw [h]
  exact List.map_id _

theorem group_iter_some_eq (gs : Nat) (key : α → Int) (items : List (Option α)) :
    Batcher._group_iter gs (some key) items
      = (chunks gs items).map fun c => pySortDesc key (c.filterMap id) := rfl

theorem poolBatches_true (B : Nat) (sr : List α → List α)
    (σ : List Nat → List Nat) (pool : List α) :
    PoolingBatcher.poolBatches B sr σ true pool
      = (σ (List.range (cdiv pool.length B))).map fun i =>
          (pool.drop (B * i)).take B := rfl

theorem poolBatches_false (B : Nat) (sr : List α → List α)
    (σ : List Nat → List Nat) (pool : List α) :
    PoolingBatcher.poolBatches B sr σ false pool
      = (List.range (cdiv pool.length B)).map fun i =>
          ((sr pool).drop (B * i)).take B := rfl

theorem flatMap_congr_left {l : List α} {f g : α → List β}
    (h : ∀ a ∈ l, f a = g a) : l.flatMap f = l.flatMap g := by
  induction l with
  | nil => rfl
  | cons x xs ih =>
    simp only [List.flatMap_cons]
    rw [h x (by simp), ih fun a ha => h a (by simp [ha])]

/-- With no sort key and the row shuffle instantiated to the identity,
pooling collapses to plain chunking by `batch_size`. -/
theorem poolingRows_no_sort_eq_chunks (B P : Nat) (hB : 0 < B) (hP : 0 < P)
    (σ : List Nat → List Nat) (l : List α) :
    PoolingBatcher.batchifyRows B P id σ none (l.map some) = chunks B l := by
  show (Batcher._group_iter (B * P) none (l.map some)).flatMap
      (PoolingBatcher.poolBatches B id σ false) = chunks B l
  rw [group_iter_none_map_some]
  have hpool : ∀ pool ∈ chunks (B * P) l,
      PoolingBatcher.poolBatches B id σ false pool = chunks B pool := by
    intro pool _
    rw [poolBatches_false, chunks_eq_rangeMap B hB]
    rfl
  rw [flatMap_congr_left hpool]
  exact chunks_flatMap B P hB hP l

/-- Every pool emitted by `_group_iter` with a sort key is non-increasing
in that key (it is the stable descending sort of its chunk). -/
theorem sorted_group_iter (gs : Nat) (key : α → Int) (items : List (Option α)) :
    ∀ pool ∈ Batcher._group_iter gs (some key) items,
      List.Pairwise (fun a b => key b ≤ key a) pool := by
  intro pool hp
  rw [group_iter_some_eq] at hp
  rcases List.mem_map.mp hp with ⟨c, _, rfl⟩
  exact pairwise_pySortDesc key _

/-- C1.  With no sort key, a positive batch size, a positive pool size and
the pool shuffle replaced by the identity permutation,
`PoolingBatcher.batchify` emits exactly `ceil(N / B)` batches; every batch
except possibly the last has exactly `B` rows, the last has
`N - B * (ceil(N/B) - 1)` rows, and concatenating all batches' rows in
emission order reproduces the input sequence. -/
theorem claim_C1 {K V : Type} [DecidableEq K] (rows : List (Row K V))
    (B P : Nat) (σ : List Nat → List Nat) (hB : 0 < B) (hP : 0 < P) :
    (PoolingBatcher.batchify B P id σ none (rows.map some)).length
      = cdiv rows.length B ∧
    (PoolingBatcher.batchifyRows B P id σ none (rows.map some)).flatten = rows ∧
    (∀ b ∈ (PoolingBatcher.batchifyRows B P id σ none (rows.map some)).dropLast,
      b.length = B) ∧
    (∀ b, (PoolingBatcher.batchifyRows B P id σ none (rows.map some)).getLast?
        = some b →
      b.length = rows.length - B * (cdiv rows.length B - 1)) := by
  have hmain := poolingRows_no_sort_eq_chunks B P hB hP σ rows
  refine ⟨?_, ?_, ?_, ?_⟩
  · show ((PoolingBatcher.batchifyRows B P id σ none (rows.map some)).map
        zip_dicts).length = _
    rw [List.length_map, hmain, length_chunks B hB]
  · rw [hmain]
    exact flatten_chunks B hB rows
  · rw [hmain]
    exact mem_dropLast_chunks B hB rows
  · rw [hmain]
    exact getLast_chunks B hB rows

/-- Witness for C1: the spec's concrete scenario — five single-field rows,
batch size 2, no sort key, shuffling disabled, giving batches of sizes
2, 2, 1 with columns `[1,2]`, `[3,4]`, `[5]`. -/
theorem claim_C1_witness :
    (PoolingBatcher.batchify 2 1 id id none
      (([[(0, 1)], [(0, 2)], [(0, 3)], [(0, 4)], [(0, 5)]] :
        List (Row Nat Int)).map some)).length = cdiv 5 2 ∧
    PoolingBatcher.batchify 2 1 id id none
      (([[(0, 1)], [(0, 2)], [(0, 3)], [(0, 4)], [(0, 5)]] :
        List (Row Nat Int)).map some)
      = [[(0, [some 1, some 2])], [(0, [some 3, some 4])], [(0, [some 5])]] :=
  ⟨(claim_C1 ([[(0, 1)], [(0, 2)], [(0, 3)], [(0, 4)], [(0, 5)]] :
      List (Row Nat Int)) 2 1 id (by decide) (by decide)).1,
   by decide⟩

/-- C3.  With a sort key and any batch-order shuffle that permutes the
batch indices, each pool emitted by `PoolingBatcher.batchify` is split
into `ceil(len(pool) / batch_size)` contiguous batches; reassembling the
slices in ascending batch-index order reproduces the pool, which is
non-increasing in the sort key; each emitted batch is one of the
contiguous slices (contents unpermuted).  The final, smaller pool is
covered because `pool` ranges over every pool `_group_iter` emits. -/
theorem claim_C3 {α : Type} (key : α → Int) (B P : Nat)
    (σ : List Nat → List Nat) (sr : List α → List α)
    (items : List (Option α)) (pool : List α) (hB : 0 < B)
    (hpool : pool ∈ Batcher._group_iter (B * P) (some key) items)
    (hσ : (σ (List.range (cdiv pool.length B))).Perm
      (List.range (cdiv pool.length B))) :
    (PoolingBatcher.poolBatches B sr σ true pool).length
      = cdiv pool.length B ∧
    ((List.range (cdiv pool.length B)).map fun i =>
      (pool.drop (B * i)).take B).flatten = pool ∧
    List.Pairwise (fun a b => key b ≤ key a) pool ∧
    ∀ b ∈ PoolingBatcher.poolBatches B sr σ true pool,
      ∃ i < cdiv pool.length B, b = (pool.drop (B * i)).take B := by
  refine ⟨?_, ?_, sorted_group_iter (B * P) key items pool hpool, ?_⟩
  · rw [poolBatches_true, List.length_map, hσ.length_eq, List.length_range]
  · rw [← chunks_eq_rangeMap B hB]
    exact flatten_chunks B hB pool
  · intro b hb
    rw [poolBatches_true] at hb
    rcases List.mem_map.mp hb with ⟨i, hi, rfl⟩
    have hmem : i ∈ List.range (cdiv pool.length B) := hσ.subset hi
    exact ⟨i, List.mem_range.mp hmem, rfl⟩

/-- Witness for C3: items `[3, 1, 2]`, batch size 1, pool of 2 batches,
batch order reversed by the shuffle. -/
theorem claim_C3_witness :
    (PoolingBatcher.poolBatches 1 id List.reverse true ([3, 1] : List Int)).length
      = cdiv 2 1 ∧
    List.Pairwise (fun a b : Int => (fun v : Int => v) b ≤ (fun v : Int => v) a)
      [3, 1] :=
  ⟨(claim_C3 (fun v : Int => v) 1 2 List.reverse id
      [some 3, some 1, some 2] [3, 1] (by decide) (by decide)
      (List.reverse_perm _)).1,
   (claim_C3 (fun v : Int => v) 1 2 List.reverse id
      [some 3, some 1, some 2] [3, 1] (by decide) (by decide)
      (List.reverse_perm _)).2.2.1⟩

theorem flatten_map_filterMap_id (L : List (List (Option α))) :
    (L.map fun c => c.filterMap id).flatten = L.flatten.filterMap id := by
  induction L with
  | nil => rfl
  | cons c cs ih =>
    simp only [List.map_cons, List.flatten_cons, List.filterMap_append, ih]

/-- C10.  `_group_iter` silently drops `None` elements after grouping:
no emitted batch contains a `None`-derived element (every batch element is
a genuine non-`None` input element); with no sort key, the emitted groups
concatenate to exactly the non-`None` input elements in order; a group
other than the final one can end up smaller than `group_size`, and an
all-`None` group yields an empty batch (concrete instance
`[None, None, a, b]` with `group_size = 2`).  `Batcher.batchifyRows` is
`_group_iter` at the batch size, so the same holds for `batchify`. -/
theorem claim_C10 {α : Type} (gs : Nat) (sk : Option (α → Int))
    (items : List (Option α)) (hgs : 0 < gs) :
    (∀ g ∈ Batcher._group_iter gs sk items, ∀ x ∈ g, some x ∈ items) ∧
    (Batcher._group_iter gs none items).flatten = items.filterMap id ∧
    (∀ a b : α,
      Batcher._group_iter 2 none [none, none, some a, some b] = [[], [a, b]]) ∧
    (Batcher.batchifyRows gs none items).flatten = items.filterMap id := by
  have hflat : (Batcher._group_iter gs none items).flatten
      = items.filterMap id := by
    show ((chunks gs items).map fun group => group.filterMap id).flatten = _
    rw [flatten_map_filterMap_id, flatten_chunks gs hgs]
  refine ⟨?_, hflat, fun a b => rfl, hflat⟩
  intro g hg x hx
  have hmemc : ∀ c ∈ chunks gs items, ∀ y ∈ c, y ∈ items := by
    intro c hc y hy
    rw [← flatten_chunks gs hgs items]
    exact List.mem_flatten.mpr ⟨c, hc, hy⟩
  rcases sk with _ | key
  · rcases List.mem_map.mp hg with ⟨c, hc, rfl⟩
    rcases List.mem_filterMap.mp hx with ⟨y, hy, hxy⟩
    simp only [id] at hxy
    subst hxy
    exact hmemc c hc _ hy
  · rw [group_iter_some_eq] at hg
    rcases List.mem_map.mp hg with ⟨c, hc, rfl⟩
    have hx2 : x ∈ (c.filterMap id) := (perm_pySortDesc key _).subset hx
    rcases List.mem_filterMap.mp hx2 with ⟨y, hy, hxy⟩
    simp only [id] at hxy
    subst hxy
    exact hmemc c hc _ hy

/-- Witness for C10: a concrete all-`None` leading group yields an empty
batch and the remaining rows survive in order. -/
theorem claim_C10_witness :
    Batcher._group_iter 2 none [none, none, some (1 : Int), some 2]
      = [[], [1, 2]] ∧
    (Batcher._group_iter 2 none [none, some (1 : Int), some 2]).flatten
      = [1, 2] :=
  ⟨(claim_C10 2 none [none, none, some (1 : Int), some 2] (by decide)).2.2.1 1 2,
   (claim_C10 2 none [none, some (1 : Int), some 2] (by decide)).2.1⟩

theorem dedup_replicate {K : Type} [DecidableEq K] (n : Nat) (f : K) :
    (List.replicate n f).dedup = if n = 0 then [] else [f] := by
  induction n with
  | zero => rfl
  | succ m ih =>
    rcases Nat.eq_zero_or_pos m with rfl | hm
    · simp
    · rw [List.replicate_succ,
        List.dedup_cons_of_mem (List.mem_replicate.mpr ⟨by omega, rfl⟩), ih,
        if_neg (by omega)]
      simp

/-- C5.  `zip_dicts` returns one column per key in the union of the rows'
key sets; each column lists `d.get(key)` per row in input order, with
`none` as the absent-marker; on `n` copies of a single-field row it yields
that one field mapped to `n` copies of the value, and `n = 0` yields no
columns rather than an error. -/
theorem claim_C5 {K V : Type} [DecidableEq K] (dicts : List (Row K V)) :
    (∀ k : K, k ∈ (zip_dicts dicts).map Prod.fst ↔
      ∃ d ∈ dicts, k ∈ Row.keys d) ∧
    (∀ (k : K) (col : List (Option V)), (k, col) ∈ zip_dicts dicts →
      col = dicts.map fun d => Row.get d k) ∧
    (∀ (n : Nat) (f : K) (v : V),
      zip_dicts (List.replicate n [(f, v)])
        = if n = 0 then [] else [(f, List.replicate n (some v))]) := by
  refine ⟨?_, ?_, ?_⟩
  · intro k
    show k ∈ (((dicts.flatMap Row.keys).dedup).map fun key =>
        (key, dicts.map fun d => Row.get d key)).map Prod.fst ↔ _
    rw [List.map_map]
    have h : (Prod.fst ∘ fun key : K =>
        (key, dicts.map fun d => Row.get d key)) = (id : K → K) := rfl
    rw [h, List.map_id, List.mem_dedup, List.mem_flatMap]
  · intro k col hk
    rcases List.mem_map.mp hk with ⟨key, _, heq⟩
    have hfst : key = k := congrArg Prod.fst heq
    have hsnd := congrArg Prod.snd heq
    simp only at hsnd
    rw [← hsnd, hfst]
  · intro n f v
    have hkeys : (List.replicate n [(f, v)]).flatMap Row.keys
        = List.replicate n f := by
      induction n with
      | zero => rfl
      | succ m ih =>
        rw [List.replicate_succ, List.flatMap_cons, ih]
        rfl
    have hdedup : (List.replicate n f).dedup = if n = 0 then [] else [f] :=
      dedup_replicate n f
    show (((List.replicate n [(f, v)]).flatMap Row.keys).dedup).map (fun key =>
        (key, (List.replicate n [(f, v)]).map fun d => Row.get d key)) = _
    rw [hkeys, hdedup]
    rcases Nat.eq_zero_or_pos n with rfl | hn
    · rfl
    · rw [if_neg (by omega), if_neg (by omega)]
      simp only [List.map_cons, List.map_nil, List.map_replicate]
      have hget : Row.get ([(f, v)] : Row K V) f = some v := by
        simp [Row.get]
      rw [hget]

/-- Witness for C5: two copies of a single-field row produce one column
with two copies of the value. -/
theorem claim_C5_witness :
    zip_dicts (List.replicate 2 [((0 : Nat), (7 : Int))])
      = [(0, [some 7, some 7])] := by
  have h := (claim_C5 (List.replicate 2 [((0 : Nat), (7 : Int))])).2.2 2 0 7
  simpa using h

/-- Stored configuration of a `Batcher` after `__init__` (the three
per-stage batch sizes; Python ints, so negatives are representable). -/
structure BatcherState : Type where
  train_batch_size : Int
  eval_batch_size : Int
  test_batch_size : Int
deriving DecidableEq, Repr

/-- `Batcher.__init__` (data.py lines 41-54): stores the three batch sizes
and the per-stage map.  The body performs no validation, so construction
never raises (hence the result is always `Except.ok`). -/
def Batcher.construct (train_batch_size eval_batch_size test_batch_size : Int) :
    Except PyErr BatcherState :=
  .ok ⟨train_batch_size, eval_batch_size, test_batch_size⟩

/-- `self._batch_sizes[stage]` (data.py lines 50-54, 61). -/
def BatcherState.batchSize (s : BatcherState) (stage : Stage) : Int :=
  match stage with
  | .TRAIN => s.train_batch_size
  | .TEST => s.test_batch_size
  | .EVAL => s.eval_batch_size

/-- `self.pool_num_batches = pool_num_batches or 1` (data.py line 101):
Python `or` keeps the first operand unless it is falsy, and the falsy ints
are exactly `None` and `0`; negative ints are truthy and kept unchanged. -/
def PoolingBatcher.coercePool (pool_num_batches : Option Int) : Int :=
  match pool_num_batches with
  | none => 1
  | some v => if v = 0 then 1 else v

/-- Stored configuration of a `PoolingBatcher` after `__init__`. -/
structure PoolingBatcherState extends BatcherState where
  pool_num_batches : Int
deriving DecidableEq, Repr

/-- `PoolingBatcher.__init__` (data.py lines 93-101): delegates to
`Batcher.__init__` and stores `pool_num_batches or 1`; no validation. -/
def PoolingBatcher.construct (train_batch_size eval_batch_size
    test_batch_size : Int) (pool_num_batches : Option Int) :
    Except PyErr PoolingBatcherState :=
  .ok ⟨⟨train_batch_size, eval_batch_size, test_batch_size⟩,
    PoolingBatcher.coercePool pool_num_batches⟩

/-- `Batcher.batchify` grouping with the raw configured batch size as a
Python int: `[iter(iterable)] * g` is `[]` for `g ≤ 0`, and
`itertools.zip_longest()` over no iterators stops at once, so a
non-positive size groups nothing (`Int.toNat` sends it to 0 and
`chunks 0 = []`). -/
def Batcher.batchifyZ (batch_size : Int) (sort_key : Option (α → Int))
    (iterable : List (Option α)) : List (List α) :=
  Batcher._group_iter batch_size.toNat sort_key iterable

/-- `PoolingBatcher.batchify` with raw Python-int sizes.  For
`batch_size < 0` with a pool present, `math.ceil(len(pool) / batch_size)`
is non-positive (the true quotient is ≤ 0) and `range` of a non-positive
bound is empty, so no batch is emitted from the pool; `batch_size = 0`
would raise ZeroDivisionError on that line but is unreachable because
`pool_size = 0` admits no pools. -/
def PoolingBatcher.batchifyZ (batch_size pool_num_batches : Int)
    (shuffleRows : List α → List α) (shuffleIdx : List Nat → List Nat)
    (sort_key : Option (α → Int)) (iterable : List (Option α)) :
    List (List α) :=
  let pool_size := batch_size * pool_num_batches
  (Batcher._group_iter pool_size.toNat sort_key iterable).flatMap fun pool =>
    let batch_indices :=
      if 0 < batch_size then List.range (cdiv pool.length batch_size.toNat)
      else []
    match sort_key with
    | some _ =>
      (shuffleIdx batch_indices).map fun i =>
        (pool.drop (batch_size.toNat * i)).take batch_size.toNat
    | none =>
      let pool2 := shuffleRows pool
      batch_indices.map fun i =>
        (pool2.drop (batch_size.toNat * i)).take batch_size.toNat

/-- Counterexample to C7 as stated: constructing a `Batcher` or a
`PoolingBatcher` with a zero or negative batch size succeeds (no
configuration error is reported at construction time), and batchifying a
non-empty input afterwards silently yields no batches. -/
theorem claim_C7_cex :
    Batcher.construct 0 16 16 = Except.ok ⟨0, 16, 16⟩ ∧
    PoolingBatcher.construct (-2) 16 16 (some 10)
      = Except.ok ⟨⟨-2, 16, 16⟩, 10⟩ ∧
    Batcher.batchifyZ 0 none [some (1 : Int)] = [] ∧
    Batcher.batchifyZ (-2) none [some (1 : Int)] = [] ∧
    PoolingBatcher.batchifyZ (-2) 10 id id none [some (1 : Int)] = [] :=
  ⟨rfl, rfl, rfl, rfl, rfl⟩

/-- C7 amended: a zero or negative batch size is not reported at
construction (construction always succeeds), and it is also never
discovered as a division fault during pooling — both `Batcher.batchify`
and `PoolingBatcher.batchify` (with a non-negative pool factor) silently
emit no batches at all. -/
theorem claim_C7_amended {α : Type} (b : Int) (hb : b ≤ 0) (t e : Int)
    (sk : Option (α → Int)) (items : List (Option α)) (p : Int) (hp : 0 ≤ p)
    (sr : List α → List α) (σ : List Nat → List Nat) :
    Batcher.construct b t e = Except.ok ⟨b, t, e⟩ ∧
    Batcher.batchifyZ b sk items = [] ∧
    PoolingBatcher.batchifyZ b p sr σ sk items = [] := by
  refine ⟨rfl, ?_, ?_⟩
  · show Batcher._group_iter b.toNat sk items = []
    rw [Int.toNat_of_nonpos hb]
    show (chunks 0 items).map _ = []
    rw [chunks_zero]
    rfl
  · show (Batcher._group_iter (b * p).toNat sk items).flatMap _ = []
    have hbp : b * p ≤ 0 := mul_nonpos_iff.mpr (Or.inr ⟨hb, hp⟩)
    rw [Int.toNat_of_nonpos hbp]
    show ((chunks 0 items).map _).flatMap _ = []
    rw [chunks_zero]
    rfl

/-- Witness for C7 (amended) at batch size `-3`, pool factor `10`. -/
theorem claim_C7_witness :
    Batcher.batchifyZ (-3) none [some (5 : Int)] = [] ∧
    PoolingBatcher.batchifyZ (-3) 10 id id none [some (5 : Int)] = [] :=
  ⟨(claim_C7_amended (-3) (by decide) 16 16 none [some (5 : Int)] 10
      (by decide) id id).2.1,
   (claim_C7_amended (-3) (by decide) 16 16 none [some (5 : Int)] 10
      (by decide) id id).2.2⟩

/-- Counterexample to C8 as stated: a negative configured
`pool_num_batches` is truthy in Python, so `pool_num_batches or 1` keeps
it; `-5` is stored as `-5`, not coerced to 1. -/
theorem claim_C8_cex :
    PoolingBatcher.coercePool (some (-5)) = -5 ∧
    PoolingBatcher.coercePool (some (-5)) ≠ 1 :=
  ⟨rfl, by decide⟩

/-- C8 amended: only the Python-falsy values — unset (`None`) and `0` —
are coerced to 1; any non-zero value (negative included) is stored
unchanged.  In the coerced cases the pool size used by `batchify` is
`batch_size * 1` and the batcher makes progress: a non-empty input with a
positive batch size yields at least one batch. -/
theorem claim_C8_amended {α : Type} (v : Int) (hv : v ≠ 0) (rows : List α)
    (B : Nat) (hB : 0 < B) (hrows : rows ≠ []) (σ : List Nat → List Nat) :
    PoolingBatcher.coercePool none = 1 ∧
    PoolingBatcher.coercePool (some 0) = 1 ∧
    PoolingBatcher.coercePool (some v) = v ∧
    B * (PoolingBatcher.coercePool none).toNat = B ∧
    0 < (PoolingBatcher.batchifyRows B (PoolingBatcher.coercePool none).toNat
      id σ none (rows.map some)).length := by
  refine ⟨rfl, rfl, ?_, ?_, ?_⟩
  · simp [PoolingBatcher.coercePool, hv]
  · show B * 1 = B
    exact Nat.mul_one B
  · show 0 < (PoolingBatcher.batchifyRows B 1 id σ none (rows.map some)).length
    rw [poolingRows_no_sort_eq_chunks B 1 hB Nat.one_pos σ rows,
      length_chunks B hB]
    exact cdiv_pos (List.length_pos.mpr hrows) hB

/-- Witness for C8 (amended) at `pool_num_batches = -7`, one row. -/
theorem claim_C8_witness :
    PoolingBatcher.coercePool (some (-7)) = -7 ∧
    0 < (PoolingBatcher.batchifyRows 1 (PoolingBatcher.coercePool none).toNat
      id id none (([5] : List Int).map some)).length :=
  ⟨(claim_C8_amended (-7) (by decide) ([5] : List Int) 1 (by decide)
      (by decide) id).2.2.1,
   (claim_C8_amended (-7) (by decide) ([5] : List Int) 1 (by decide)
      (by decide) id).2.2.2.2⟩

/-- External collaborators and configuration of one `Data` instance
(data.py 236-260).  `source stage k` is the row stream the data source
serves for `stage` on its `k`-th physical read (a stub source may mutate
between reads); `numberize` is the per-row conversion
`{name: t.numberize(row) for name, t in tensorizers}` (which may raise);
`mkCursor` is the batcher-plus-`pad_and_tensorize_batches` pipeline, a
pull-stream transformer over the (fallible) numberized-row stream. -/
structure DataConfig (R N B E : Type) : Type where
  source : Stage → Nat → List R
  numberize : R → Except E N
  mkCursor : List (Except E N) → List (Except E B)
  epoch_size : Option Nat
  in_memory : Bool

/-- Mutable state of a `Data` instance: `self.batch` (the per-stage live
cursor, modelled as the not-yet-pulled tail of the stream),
`self.numberized_cache`, and the per-stage count of physical source
reads (how often rows were actually consumed from the source). -/
structure DataState (N B E : Type) : Type where
  batch : Stage → Option (List (Except E B))
  numberized_cache : Stage → Option (List N)
  readCount : Stage → Nat

/-- `self.batch[stage] = v`. -/
def DataState.setBatch (s : DataState N B E) (stage : Stage)
    (v : Option (List (Except E B))) : DataState N B E :=
  ⟨fun t => if t = stage then v else s.batch t, s.numberized_cache, s.readCount⟩

/-- `self.numberized_cache[stage] = v`. -/
def DataState.setCache (s : DataState N B E) (stage : Stage)
    (v : Option (List N)) : DataState N B E :=
  ⟨s.batch, fun t => if t = stage then v else s.numberized_cache t, s.readCount⟩

/-- Record one physical consumption of the `stage` row stream. -/
def DataState.bumpRead (s : DataState N B E) (stage : Stage) : DataState N B E :=
  ⟨s.batch, s.numberized_cache,
    fun t => if t = stage then s.readCount t + 1 else s.readCount t⟩

/-- State after `Data.__init__`: no live cursor
(`self.batch = {TRAIN: None, EVAL: None, TEST: None}`), empty
`numberized_cache`, no reads served. -/
def dataInit : DataState N B E := ⟨fun _ => none, fun _ => none, fun _ => 0⟩

@[simp] theorem setBatch_batch_self (s : DataState N B E) (st : Stage) (v) :
    (s.setBatch st v).batch st = v := by
  simp [DataState.setBatch]

@[simp] theorem setBatch_cache (s : DataState N B E) (st : Stage) (v) :
    (s.setBatch st v).numberized_cache = s.numberized_cache := rfl

@[simp] theorem setBatch_read (s : DataState N B E) (st : Stage) (v) :
    (s.setBatch st v).readCount = s.readCount := rfl

@[simp] theorem setCache_cache_self (s : DataState N B E) (st : Stage) (v) :
    (s.setCache st v).numberized_cache st = v := by
  simp [DataState.setCache]

@[simp] theorem setCache_batch (s : DataState N B E) (st : Stage) (v) :
    (s.setCache st v).batch = s.batch := rfl

@[simp] theorem setCache_read (s : DataState N B E) (st : Stage) (v) :
    (s.setCache st v).readCount = s.readCount := rfl

@[simp] theorem bumpRead_batch (s : DataState N B E) (st : Stage) :
    (s.bumpRead st).batch = s.batch := rfl

@[simp] theorem bumpRead_cache (s : DataState N B E) (st : Stage) :
    (s.bumpRead st).numberized_cache = s.numberized_cache := rfl

@[simp] theorem bumpRead_read_self (s : DataState N B E) (st : Stage) :
    (s.bumpRead st).readCount st = s.readCount st + 1 := by
  simp [DataState.bumpRead]

/-- Apply a fallible function to each list element left to right; the
first raise aborts the traversal (a Python `for` loop building a list). -/
def mapE (f : α → Except E β) : List α → Except E (List β)
  | [] => .ok []
  | x :: xs =>
    match f x with
    | .error e => .error e
    | .ok y => (mapE f xs).map fun ys => y :: ys

/-- Force a list of already-delayed fallible results left to right; the
first raise aborts (pulling every element of a group from a fallible
iterator). -/
def exceptSeq : List (Except E α) → Except E (List α)
  | [] => .ok []
  | .error e :: _ => .error e
  | .ok x :: rest => (exceptSeq rest).map fun xs => x :: xs

/-- `list(self.numberize_rows(rows))` (data.py 273, 296-301): numberize
each row in input order; the first row whose conversion raises aborts the
whole materialization with that error. -/
def Data.numberize_rows (cfg : DataConfig R N B E) (rows : List R) :
    Except E (List N) :=
  mapE cfg.numberize rows

/-- The in-memory cache-miss path of `Data._get_batches` (data.py 272-274):
read the stage's rows (one physical consumption), materialize
`numberize_rows`; on success write the cache and install the cursor, on a
raise propagate it — the cache assignment on line 274 never runs. -/
def Data.rederiveCache (cfg : DataConfig R N B E) (stage : Stage)
    (s : DataState N B E) : Except E (List (Except E B)) × DataState N B E :=
  match Data.numberize_rows cfg (cfg.source stage (s.readCount stage)) with
  | .error e => (.error e, s.bumpRead stage)
  | .ok nr =>
    (.ok (cfg.mkCursor (nr.map Except.ok)),
      ((s.bumpRead stage).setCache stage (some nr)).setBatch stage
        (some (cfg.mkCursor (nr.map Except.ok))))

/-- `Data._get_batches` (data.py 262-294).  A live cursor is reused
(`if not self.batch[stage]` — an iterator object is always truthy).  With
caching on, `if not numberized_rows` treats both a missing entry and an
EMPTY cached list as a miss (an empty list is falsy), re-deriving in both
cases; a non-empty cached list is fed straight to the batcher without
touching the source.  With caching off, the lazy numberize stream is fed
to the batcher and the source is consumed as the cursor is pulled (the
physical read is counted at derivation). -/
def Data._get_batches (cfg : DataConfig R N B E) (stage : Stage)
    (s : DataState N B E) : Except E (List (Except E B)) × DataState N B E :=
  match s.batch stage with
  | some cur => (.ok cur, s)
  | none =>
    if cfg.in_memory then
      match s.numberized_cache stage with
      | some nr =>
        if nr.isEmpty then Data.rederiveCache cfg stage s
        else
          (.ok (cfg.mkCursor (nr.map Except.ok)),
            s.setBatch stage (some (cfg.mkCursor (nr.map Except.ok))))
      | none => Data.rederiveCache cfg stage s
    else
      (.ok (cfg.mkCursor
          ((cfg.source stage (s.readCount stage)).map cfg.numberize)),
        (s.bumpRead stage).setBatch stage
          (some (cfg.mkCursor
            ((cfg.source stage (s.readCount stage)).map cfg.numberize))))

/-- How the `for batch in self._get_batches(...)` loop of one `while True`
iteration ends: the epoch bound was hit (`return`), the cursor was
exhausted normally, or a pull raised. -/
inductive LoopExit (E : Type) : Type
  | epochHit
  | exhausted
  | raised (e : E)
deriving DecidableEq

/-- The `for batch in cursor` loop body of `Data.batches` (data.py
317-322): pull the next element; a raising pull propagates; otherwise,
for TRAIN, when the per-invocation counter already equals `epoch_size`
the freshly pulled batch is discarded, the counter resets and the
generator returns; otherwise count and yield the batch.  Returns (yielded
batches, counter, unconsumed cursor tail, exit kind). -/
def Data.drainCursor (epoch_size : Option Nat) (isTrain : Bool) :
    List (Except E B) → Nat →
      List B × Nat × List (Except E B) × LoopExit E
  | [], num => ([], num, [], .exhausted)
  | x :: rest, num =>
    match x with
    | .error e => ([], num, rest, .raised e)
    | .ok b =>
      if isTrain = true ∧ epoch_size = some num then ([], 0, rest, .epochHit)
      else
        match Data.drainCursor epoch_size isTrain rest (num + 1) with
        | (ys, num2, rem, ex) => (b :: ys, num2, rem, ex)

/-- The `while True` loop of `Data.batches` (data.py 316-325), with `fuel`
bounding the number of iterations (the loop can run forever, e.g. on an
empty TRAIN supply with an epoch size set; `none` = fuel ran out).  On a
normal for-loop exhaustion the cursor is cleared and, unless
`stage != TRAIN or not self.epoch_size` (note: epoch size 0 is falsy),
the loop re-derives and continues within the same invocation.  On an
epoch-bound `return` the cursor is left alive. -/
def Data.whileBatches (cfg : DataConfig R N B E) (stage : Stage) :
    Nat → Nat → DataState N B E →
      Option (List B × Except E Unit × DataState N B E)
  | 0, _, _ => none
  | fuel + 1, num, s =>
    match Data._get_batches cfg stage s with
    | (.error e, s1) => some ([], .error e, s1)
    | (.ok cur, s1) =>
      match Data.drainCursor cfg.epoch_size (decide (stage = Stage.TRAIN))
          cur num with
      | (ys, _, rem, .epochHit) => some (ys, .ok (), s1.setBatch stage (some rem))
      | (ys, _, rem, .raised e) => some (ys, .error e, s1.setBatch stage (some rem))
      | (ys, num2, rem, .exhausted) =>
        if stage ≠ Stage.TRAIN ∨ cfg.epoch_size = none ∨
            cfg.epoch_size = some 0 then
          some (ys, .ok (),
            (s1.setBatch stage (some rem)).setBatch stage none)
        else
          match Data.whileBatches cfg stage fuel num2
              ((s1.setBatch stage (some rem)).setBatch stage none) with
          | none => none
          | some (ys2, res, s4) => some (ys ++ ys2, res, s4)

/-- One invocation of the restartable generator `Data.batches`
(data.py 303-325), run to completion: resets the per-invocation counter
(`self.num_batches = 0`) and runs the while loop. -/
def Data.batches (cfg : DataConfig R N B E) (stage : Stage) (fuel : Nat)
    (s : DataState N B E) :
    Option (List B × Except E Unit × DataState N B E) :=
  Data.whileBatches cfg stage fuel 0 s

theorem get_batches_live (cfg : DataConfig R N B E) (stage : Stage)
    (s : DataState N B E) (cur : List (Except E B))
    (hb : s.batch stage = some cur) :
    Data._get_batches cfg stage s = (.ok cur, s) := by
  unfold Data._get_batches
  rw [hb]

theorem get_batches_cache_miss (cfg : DataConfig R N B E) (stage : Stage)
    (s : DataState N B E) (nr : List N)
    (hmem : cfg.in_memory = true) (hb : s.batch stage = none)
    (hc : s.numberized_cache stage = none)
    (hnum : Data.numberize_rows cfg (cfg.source stage (s.readCount stage))
      = .ok nr) :
    Data._get_batches cfg stage s =
      (.ok (cfg.mkCursor (nr.map Except.ok)),
        (((s.bumpRead stage).setCache stage (some nr)).setBatch stage
          (some (cfg.mkCursor (nr.map Except.ok))))) := by
  unfold Data._get_batches
  rw [hb, hmem, hc]
  simp only [if_true]
  unfold Data.rederiveCache
  rw [hnum]

theorem get_batches_cache_err (cfg : DataConfig R N B E) (stage : Stage)
    (s : DataState N B E) (e : E)
    (hmem : cfg.in_memory = true) (hb : s.batch stage = none)
    (hc : s.numberized_cache stage = none)
    (hnum : Data.numberize_rows cfg (cfg.source stage (s.readCount stage))
      = .error e) :
    Data._get_batches cfg stage s = (.error e, s.bumpRead stage) := by
  unfold Data._get_batches
  rw [hb, hmem, hc]
  simp only [if_true]
  unfold Data.rederiveCache
  rw [hnum]

theorem get_batches_cache_hit (cfg : DataConfig R N B E) (stage : Stage)
    (s : DataState N B E) (nr : List N)
    (hmem : cfg.in_memory = true) (hb : s.batch stage = none)
    (hc : s.numberized_cache stage = some nr) (hne : nr ≠ []) :
    Data._get_batches cfg stage s =
      (.ok (cfg.mkCursor (nr.map Except.ok)),
        s.setBatch stage (some (cfg.mkCursor (nr.map Except.ok)))) := by
  unfold Data._get_batches
  rw [hb, hmem, hc]
  have hemp : nr.isEmpty = false := by
    rcases nr with _ | ⟨x, xs⟩
    · exact absurd rfl hne
    · rfl
  simp only [if_true, hemp, Bool.false_eq_true, if_false]

theorem get_batches_uncached (cfg : DataConfig R N B E) (stage : Stage)
    (s : DataState N B E)
    (hmem : cfg.in_memory = false) (hb : s.batch stage = none) :
    Data._get_batches cfg stage s =
      (.ok (cfg.mkCursor
          ((cfg.source stage (s.readCount stage)).map cfg.numberize)),
        (s.bumpRead stage).setBatch stage
          (some (cfg.mkCursor
            ((cfg.source stage (s.readCount stage)).map cfg.numberize)))) := by
  unfold Data._get_batches
  rw [hb, hmem]
  simp only [Bool.false_eq_true, if_false]

/-- C9.  With in-memory caching enabled and a field converter raising on
some row of the phase, `_get_batches` (the batch derivation) aborts with
that error, and neither the numberized-row cache nor the cursor for that
phase is populated: caching is all-or-nothing, because the cache
assignment follows the full `list(...)` materialization. -/
theorem claim_C9 (cfg : DataConfig R N B E) (stage : Stage)
    (s : DataState N B E) (e : E)
    (hmem : cfg.in_memory = true) (hb : s.batch stage = none)
    (hc : s.numberized_cache stage = none)
    (herr : Data.numberize_rows cfg (cfg.source stage (s.readCount stage))
      = .error e) :
    (Data._get_batches cfg stage s).1 = .error e ∧
    (Data._get_batches cfg stage s).2.numberized_cache stage = none ∧
    (Data._get_batches cfg stage s).2.batch stage = none := by
  rw [get_batches_cache_err cfg stage s e hmem hb hc herr]
  exact ⟨rfl, by simp [hc], by simp [hb]⟩

/-- Configuration whose numberize always raises, over a one-row source
(the batcher pipeline is the identity pull-stream). -/
def cfgC9 : DataConfig Int Int Int PyErr :=
  ⟨fun _ _ => [0], fun _ => .error .keyError, fun l => l, none, true⟩

/-- Witness for C9: the derivation aborts with the converter's error and
the cache stays unpopulated. -/
theorem claim_C9_witness :
    (Data._get_batches cfgC9 Stage.EVAL dataInit).1
      = .error PyErr.keyError ∧
    (Data._get_batches cfgC9 Stage.EVAL dataInit).2.numberized_cache
      Stage.EVAL = none ∧
    (Data._get_batches cfgC9 Stage.EVAL dataInit).2.batch Stage.EVAL
      = none :=
  claim_C9 cfgC9 Stage.EVAL dataInit PyErr.keyError rfl rfl rfl rfl

theorem drainCursor_not_train {B E : Type} (es : Option Nat) (q : List B)
    (c : Nat) :
    Data.drainCursor es false ((q.map Except.ok : List (Except E B))) c
      = (q, c + q.length, ([] : List (Except E B)), LoopExit.exhausted) := by
  induction q generalizing c with
  | nil => simp [Data.drainCursor]
  | cons b rest ih =>
    simp only [List.map_cons, Data.drainCursor, List.length_cons]
    rw [if_neg (by simp), ih (c + 1)]
    have h : c + 1 + rest.length = c + (rest.length + 1) := by omega
    rw [h]

theorem drainCursor_train_exhaust {B E : Type} (Ep : Nat) (q : List B)
    (c : Nat) (h : c + q.length ≤ Ep) :
    Data.drainCursor (some Ep) true ((q.map Except.ok : List (Except E B))) c
      = (q, c + q.length, ([] : List (Except E B)), LoopExit.exhausted) := by
  induction q generalizing c with
  | nil => simp [Data.drainCursor]
  | cons b rest ih =>
    simp only [List.length_cons] at h
    simp only [List.map_cons, Data.drainCursor, List.length_cons]
    rw [if_neg (by simp; omega), ih (c + 1) (by omega)]
    have h2 : c + 1 + rest.length = c + (rest.length + 1) := by omega
    rw [h2]

theorem drainCursor_train_hit {B E : Type} (Ep : Nat) (q : List B) (c : Nat)
    (hc : c ≤ Ep) (hlen : Ep - c < q.length) :
    Data.drainCursor (some Ep) true ((q.map Except.ok : List (Except E B))) c
      = (q.take (Ep - c), 0,
        ((q.drop (Ep - c + 1)).map Except.ok : List (Except E B)),
        LoopExit.epochHit) := by
  induction q generalizing c with
  | nil =>
    simp only [List.length_nil] at hlen
    omega
  | cons b rest ih =>
    simp only [List.length_cons] at hlen
    simp only [List.map_cons, Data.drainCursor]
    rcases eq_or_lt_of_le hc with rfl | hlt
    · rw [if_pos (by simp)]
      simp [Nat.sub_self]
    · rw [if_neg (by simp; omega), ih (c + 1) (by omega) (by omega)]
      obtain ⟨d, hd⟩ : ∃ d, Ep - c = d + 1 := ⟨Ep - c - 1, by omega⟩
      have hd2 : Ep - (c + 1) = d := by omega
      rw [hd2, hd, List.take_succ_cons, List.drop_succ_cons]

/-- One full pass of `Data.batches` for a non-TRAIN stage whose cursor
contains only successful pulls: all batches are yielded, the cursor is
exhausted and cleared, and the invocation terminates. -/
theorem whileBatches_not_train (cfg : DataConfig R N B E) (stage : Stage)
    (hst : stage ≠ Stage.TRAIN) (fuel num : Nat) (s s1 : DataState N B E)
    (bs : List B)
    (hget : Data._get_batches cfg stage s = (.ok (bs.map Except.ok), s1)) :
    Data.whileBatches cfg stage (fuel + 1) num s
      = some (bs, .ok (),
        (s1.setBatch stage (some [])).setBatch stage none) := by
  have hdec : decide (stage = Stage.TRAIN) = false := decide_eq_false hst
  simp only [Data.whileBatches, hget, hdec]
  rw [drainCursor_not_train]
  simp [hst]

@[simp] theorem dataInit_batch (st : Stage) :
    (dataInit : DataState N B E).batch st = none := rfl

@[simp] theorem dataInit_cache (st : Stage) :
    (dataInit : DataState N B E).numberized_cache st = none := rfl

@[simp] theorem dataInit_read (st : Stage) :
    (dataInit : DataState N B E).readCount st = 0 := rfl

/-- C4 amended: with in-memory caching enabled, PROVIDED the first
derivation's numberized rows are non-empty, they are cached and reused on
every later derivation: two successive invocations of `batches(EVAL)`
yield identical batches, the cache still holds the first read's rows, and
only one physical source read ever happens — later reads of the source
(which might return different rows) are masked.  (The proviso is forced
by the counterexample: an empty cached list is falsy and is treated as a
cache miss.) -/
theorem claim_C4_amended (cfg : DataConfig R N B E) (nr : List N) (bs : List B)
    (hmem : cfg.in_memory = true)
    (hnum : Data.numberize_rows cfg (cfg.source Stage.EVAL 0) = .ok nr)
    (hnr : nr ≠ [])
    (hcur : cfg.mkCursor (nr.map Except.ok) = bs.map Except.ok) :
    ∃ s1 s2,
      Data.batches cfg Stage.EVAL 1 dataInit = some (bs, .ok (), s1) ∧
      s1.numberized_cache Stage.EVAL = some nr ∧
      s1.readCount Stage.EVAL = 1 ∧
      Data.batches cfg Stage.EVAL 1 s1 = some (bs, .ok (), s2) ∧
      s2.numberized_cache Stage.EVAL = some nr ∧
      s2.readCount Stage.EVAL = 1 := by
  have hget1 := get_batches_cache_miss cfg Stage.EVAL dataInit nr hmem rfl rfl
    hnum
  rw [hcur] at hget1
  have hrun1 := whileBatches_not_train cfg Stage.EVAL (by decide) 0 0 dataInit
    _ bs hget1
  have hget2 := get_batches_cache_hit cfg Stage.EVAL
    (((((dataInit.bumpRead Stage.EVAL).setCache Stage.EVAL
      (some nr)).setBatch Stage.EVAL (some (bs.map Except.ok))).setBatch
      Stage.EVAL (some [])).setBatch Stage.EVAL none) nr hmem (by simp)
    (by simp) hnr
  rw [hcur] at hget2
  have hrun2 := whileBatches_not_train cfg Stage.EVAL (by decide) 0 0 _ _ bs
    hget2
  exact ⟨_, _, hrun1, by simp, by simp, hrun2, by simp, by simp⟩

/-- A source stub that mutates between physical reads of EVAL: the first
read returns no rows, every later read returns one row `17`; numberize is
the identity and the batcher pipeline is the identity pull-stream. -/
def cfgC4 : DataConfig Int Int Int Unit :=
  ⟨fun st k => if st = Stage.EVAL then (if k = 0 then [] else [17]) else [],
   Except.ok, fun l => l, none, true⟩

/-- First invocation of `batches(EVAL)` against `cfgC4`. -/
def c4run1 : Option (List Int × Except Unit Unit × DataState Int Int Unit) :=
  Data.batches cfgC4 Stage.EVAL 1 dataInit

/-- State left by the first invocation. -/
def c4s1 : DataState Int Int Unit :=
  match c4run1 with
  | some (_, _, s) => s
  | none => dataInit

/-- Second invocation, resuming from the first invocation's state. -/
def c4run2 : Option (List Int × Except Unit Unit × DataState Int Int Unit) :=
  Data.batches cfgC4 Stage.EVAL 1 c4s1

/-- Counterexample to C4 as stated: with caching enabled, the first
derivation materializes an EMPTY numberized-row list; `if not
numberized_rows` treats that cached empty list as a miss (it is falsy), so
the second invocation re-reads the mutated source and yields different
batches — the cache did not mask the second physical read (two reads
happen, and the two invocations disagree). -/
theorem claim_C4_cex :
    c4run1.map (fun t => t.1) = some [] ∧
    c4s1.numberized_cache Stage.EVAL = some [] ∧
    c4run2.map (fun t => t.1) = some [17] ∧
    cfgC4.source Stage.EVAL 0 ≠ cfgC4.source Stage.EVAL 1 ∧
    (match c4run2 with
      | some (_, _, s) => s.readCount Stage.EVAL
      | none => 0) = 2 :=
  ⟨rfl, rfl, rfl, by decide, rfl⟩

/-- A static one-row EVAL source with identity numberize and identity
batcher pipeline, for the C4 witness. -/
def cfgC4w : DataConfig Int Int Int Unit :=
  ⟨fun _ _ => [5], Except.ok, fun l => l, none, true⟩

/-- Witness for C4 (amended) on a non-empty source. -/
theorem claim_C4_witness :
    (Data.batches cfgC4w Stage.EVAL 1 dataInit).map (fun t => t.1)
      = some [5] := by
  obtain ⟨s1, s2, h1, _⟩ :=
    claim_C4_amended cfgC4w [5] [5] rfl rfl (by decide) rfl
  rw [h1]
  rfl

/-- One TRAIN pass that exhausts its all-ok cursor under the epoch bound:
all its batches are yielded, the cursor is cleared, and the loop continues
with the updated counter. -/
theorem whileBatches_train_step_exhaust (cfg : DataConfig R N B E) (Ep : Nat)
    (hE : cfg.epoch_size = some Ep) (hEp : Ep ≠ 0) (f num : Nat)
    (s s1 : DataState N B E) (bs : List B)
    (hget : Data._get_batches cfg Stage.TRAIN s = (.ok (bs.map Except.ok), s1))
    (hnum : num + bs.length ≤ Ep) :
    Data.whileBatches cfg Stage.TRAIN (f + 1) num s
      = (match Data.whileBatches cfg Stage.TRAIN f (num + bs.length)
          ((s1.setBatch Stage.TRAIN (some [])).setBatch Stage.TRAIN none) with
        | none => none
        | some (ys2, res, s4) => some (bs ++ ys2, res, s4)) := by
  simp only [Data.whileBatches, hget, hE]
  have hdec : (decide True) = true := rfl
  rw [hdec, drainCursor_train_exhaust Ep bs num hnum]
  simp [hEp]

/-- One TRAIN pass whose all-ok cursor holds strictly more batches than
the epoch bound leaves room for: the bound is hit, the next pulled batch
is discarded, and the cursor is left alive holding the tail. -/
theorem whileBatches_train_step_hit (cfg : DataConfig R N B E) (Ep : Nat)
    (hE : cfg.epoch_size = some Ep) (f num : Nat)
    (s s1 : DataState N B E) (bs : List B)
    (hget : Data._get_batches cfg Stage.TRAIN s = (.ok (bs.map Except.ok), s1))
    (hnum : num ≤ Ep) (hlen : Ep - num < bs.length) :
    Data.whileBatches cfg Stage.TRAIN (f + 1) num s
      = some (bs.take (Ep - num), .ok (),
        s1.setBatch Stage.TRAIN
          (some ((bs.drop (Ep - num + 1)).map Except.ok))) := by
  simp only [Data.whileBatches, hget, hE]
  have hdec : (decide True) = true := rfl
  rw [hdec, drainCursor_train_hit Ep bs num hnum hlen]

/-- The TRAIN while-loop invariant, uncached: starting a pass with no live
cursor and counter `c ≤ Ep`, with every physical pass supplying `M` ok
batches, the invocation yields exactly `Ep - c` more batches, stops at the
epoch bound leaving an all-ok cursor alive, and physically reads the
source at least once (at least twice when a full supply fits under the
bound, i.e. the stream was re-derived within the invocation). -/
theorem while_train_loop (cfg : DataConfig R N B E) (Ep M : Nat)
    (hE : cfg.epoch_size = some Ep) (hmem : cfg.in_memory = false)
    (hM0 : 0 < M) (hEp : 0 < Ep)
    (hsup : ∀ k, ∃ bs : List B, bs.length = M ∧
      cfg.mkCursor ((cfg.source Stage.TRAIN k).map cfg.numberize)
        = bs.map Except.ok) :
    ∀ (fuel c : Nat) (s : DataState N B E), c ≤ Ep →
      s.batch Stage.TRAIN = none → Ep - c + 1 ≤ fuel →
      ∃ (ys rem : List B) (s2 : DataState N B E),
        Data.whileBatches cfg Stage.TRAIN fuel c s = some (ys, .ok (), s2) ∧
        ys.length = Ep - c ∧
        s2.batch Stage.TRAIN = some (rem.map Except.ok) ∧
        s.readCount Stage.TRAIN + 1 ≤ s2.readCount Stage.TRAIN ∧
        (c + M ≤ Ep →
          s.readCount Stage.TRAIN + 2 ≤ s2.readCount Stage.TRAIN) := by
  intro fuel
  induction fuel with
  | zero =>
    intro c s hc hb hf
    omega
  | succ f ih =>
    intro c s hc hb hf
    obtain ⟨bs, hlen, hbs⟩ := hsup (s.readCount Stage.TRAIN)
    have hget := get_batches_uncached cfg Stage.TRAIN s hmem hb
    rw [hbs] at hget
    rcases le_or_lt (c + M) Ep with hle | hgt
    · -- the whole supply fits: the pass exhausts and the loop re-derives
      have heq := whileBatches_train_step_exhaust cfg Ep hE (by omega) f c s
        _ bs hget (by omega)
      obtain ⟨ys2, rem, s4, hw, hlen2, hbatch, hrc1, _⟩ :=
        ih (c + bs.length)
          ((((s.bumpRead Stage.TRAIN).setBatch Stage.TRAIN
            (some (bs.map Except.ok))).setBatch Stage.TRAIN
            (some [])).setBatch Stage.TRAIN none)
          (by omega) (by simp) (by omega)
      rw [hw] at heq
      refine ⟨bs ++ ys2, rem, s4, heq.trans rfl, ?_, hbatch, ?_, ?_⟩
      · simp only [List.length_append, hlen, hlen2]
        omega
      · simp only [setBatch_read, bumpRead_read_self] at hrc1
        omega
      · intro _
        simp only [setBatch_read, bumpRead_read_self] at hrc1
        omega
    · -- the bound is hit inside this pass; the cursor stays alive
      have heq := whileBatches_train_step_hit cfg Ep hE f c s _ bs hget hc
        (by omega)
      refine ⟨bs.take (Ep - c), bs.drop (Ep - c + 1), _, heq, ?_, by simp,
        ?_, ?_⟩
      · simp only [List.length_take, hlen]
        omega
      · simp
      · intro h2
        omega

/-- A TRAIN invocation that starts on a live all-ok cursor (left by a
previous epoch-bounded invocation) again yields exactly `Ep - c` batches
and again ends with a live cursor. -/
theorem while_train_resume (cfg : DataConfig R N B E) (Ep M : Nat)
    (hE : cfg.epoch_size = some Ep) (hmem : cfg.in_memory = false)
    (hM0 : 0 < M) (hEp : 0 < Ep)
    (hsup : ∀ k, ∃ bs : List B, bs.length = M ∧
      cfg.mkCursor ((cfg.source Stage.TRAIN k).map cfg.numberize)
        = bs.map Except.ok)
    (fuel c : Nat) (s : DataState N B E) (pend : List B)
    (hc : c ≤ Ep) (hb : s.batch Stage.TRAIN = some (pend.map Except.ok))
    (hf : Ep - c + 2 ≤ fuel) :
    ∃ (ys rem : List B) (s2 : DataState N B E),
      Data.whileBatches cfg Stage.TRAIN fuel c s = some (ys, .ok (), s2) ∧
      ys.length = Ep - c ∧
      s2.batch Stage.TRAIN = some (rem.map Except.ok) := by
  obtain ⟨f, rfl⟩ : ∃ f, fuel = f + 1 := ⟨fuel - 1, by omega⟩
  have hget := get_batches_live cfg Stage.TRAIN s _ hb
  rcases le_or_lt pend.length (Ep - c) with hle | hgt
  · -- the leftover cursor exhausts below the bound; fresh passes follow
    have heq := whileBatches_train_step_exhaust cfg Ep hE (by omega) f c s
      s pend hget (by omega)
    obtain ⟨ys2, rem, s4, hw, hlen2, hbatch, _, _⟩ :=
      while_train_loop cfg Ep M hE hmem hM0 hEp hsup f (c + pend.length)
        ((s.setBatch Stage.TRAIN (some [])).setBatch Stage.TRAIN none)
        (by omega) (by simp) (by omega)
    rw [hw] at heq
    refine ⟨pend ++ ys2, rem, s4, heq.trans rfl, ?_, hbatch⟩
    simp only [List.length_append, hlen2]
    omega
  · -- the bound is hit inside the leftover cursor
    have heq := whileBatches_train_step_hit cfg Ep hE f c s s pend hget hc hgt
    refine ⟨pend.take (Ep - c), pend.drop (Ep - c + 1), _, heq, ?_, by simp⟩
    simp only [List.length_take]
    omega

/-- C2.  With epoch size `Ep` configured, caching off, and an underlying
TRAIN supply of `M` ok batches per physical pass, `0 < M < Ep`: one
invocation of `Data.batches(TRAIN)` yields exactly `Ep` batches,
re-deriving the physical stream within the invocation (at least two
physical reads), and ends with the cursor left alive (not cleared); a
second invocation from the resulting state again yields exactly `Ep`
batches. -/
theorem claim_C2 (cfg : DataConfig R N B E) (Ep M : Nat)
    (hE : cfg.epoch_size = some Ep) (hmem : cfg.in_memory = false)
    (hM0 : 0 < M) (hME : M < Ep)
    (hsup : ∀ k, ∃ bs : List B, bs.length = M ∧
      cfg.mkCursor ((cfg.source Stage.TRAIN k).map cfg.numberize)
        = bs.map Except.ok) :
    ∃ (ys1 rem1 : List B) (s1 : DataState N B E) (ys2 rem2 : List B)
      (s2 : DataState N B E),
      Data.batches cfg Stage.TRAIN (Ep + 2) dataInit
        = some (ys1, .ok (), s1) ∧
      ys1.length = Ep ∧
      s1.batch Stage.TRAIN = some (rem1.map Except.ok) ∧
      2 ≤ s1.readCount Stage.TRAIN ∧
      Data.batches cfg Stage.TRAIN (Ep + 2) s1 = some (ys2, .ok (), s2) ∧
      ys2.length = Ep ∧
      s2.batch Stage.TRAIN = some (rem2.map Except.ok) := by
  have hEp : 0 < Ep := by omega
  obtain ⟨ys1, rem1, s1, hw1, hlen1, hbatch1, _, hrc2⟩ :=
    while_train_loop cfg Ep M hE hmem hM0 hEp hsup (Ep + 2) 0 dataInit
      (by omega) (by simp) (by omega)
  obtain ⟨ys2, rem2, s2, hw2, hlen2, hbatch2⟩ :=
    while_train_resume cfg Ep M hE hmem hM0 hEp hsup (Ep + 2) 0 s1 rem1
      (by omega) hbatch1 (by omega)
  refine ⟨ys1, rem1, s1, ys2, rem2, s2, hw1, by omega, hbatch1, ?_, hw2,
    by omega, hbatch2⟩
  have := hrc2 (by omega)
  simpa using this

/-- Unit-typed TRAIN configuration for the C2 witness: one batch per
physical pass (`M = 1`), epoch size 2, caching off, identity pipeline. -/
def cfgC2 : DataConfig Unit Unit Unit Unit :=
  ⟨fun _ _ => [()], Except.ok, fun l => l, some 2, false⟩

/-- Witness for C2: epoch size 2 over a 1-batch supply yields exactly 2
batches in one invocation. -/
theorem claim_C2_witness :
    (Data.batches cfgC2 Stage.TRAIN (2 + 2) dataInit).map
      (fun t => t.1.length) = some 2 := by
  obtain ⟨ys1, rem1, s1, ys2, rem2, s2, h1, hlen, _⟩ :=
    claim_C2 cfgC2 2 1 rfl rfl (by decide) (by decide)
      (fun k => ⟨[()], rfl, rfl⟩)
  rw [h1]
  simp [hlen]

theorem mapE_ok (l : List α) :
    mapE (Except.ok : α → Except E α) l = .ok l := by
  induction l with
  | nil => rfl
  | cons x xs ih => simp [mapE, ih, Except.map]

theorem exceptSeq_map_ok (l : List α) :
    exceptSeq (l.map (Except.ok : α → Except E α)) = .ok l := by
  induction l with
  | nil => rfl
  | cons x xs ih => simp [exceptSeq, ih, Except.map]

/-- The sort of one group when each key application may raise:
`list.sort(key=f, reverse=True)` first applies the key to every element
left to right (raising on the first failure), then stably sorts the
decorated pairs descending. -/
def sortGroupE (key : α → Except E Int) (g : List α) : Except E (List α) :=
  (mapE (fun r => (key r).map fun k => (k, r)) g).map fun pairs =>
    (List.insertionSort (fun a b : Int × α => b.1 ≤ a.1) pairs).map Prod.snd

/-- `_group_iter` pulling from a fallible stream with a sort key always
present: forming a group forces `group_size` pulls (the first raising pull
kills the group), then the sort applies the key to every element of the
group. -/
def Batcher._group_iterE (group_size : Nat) (key : α → Except E Int)
    (items : List (Except E α)) : List (Except E (List α)) :=
  (chunks group_size items).map fun c =>
    match exceptSeq c with
    | .error e => .error e
    | .ok g => sortGroupE key g

/-- Pool-to-batches emission for the sorted path of
`PoolingBatcher.batchify` over a fallible pool stream: a raised pool
error ends the generator; an ok pool yields its contiguous slices in
shuffled batch-index order. -/
def PoolingBatcher.emitPools (B : Nat) (σ : List Nat → List Nat) :
    List (Except E (List α)) → List (Except E (List α))
  | [] => []
  | .error e :: _ => [.error e]
  | .ok pool :: rest =>
    ((σ (List.range (cdiv pool.length B))).map fun i =>
      Except.ok ((pool.drop (B * i)).take B)) ++
      PoolingBatcher.emitPools B σ rest

/-- `PoolingBatcher.batchify` with a sort key as a fallible pull-stream:
pools of `batch_size * pool_num_batches` rows sorted by the (fallible)
key, sliced into batches in shuffled index order, `zip_dicts` applied to
each successfully formed batch; a raise surfaces at the pull that forces
it and ends the stream. -/
def PoolingBatcher.batchifyE {K V : Type} [DecidableEq K] (B P : Nat)
    (σ : List Nat → List Nat) (key : Row K V → Except E Int)
    (items : List (Except E (Row K V))) :
    List (Except E (List (K × List (Option V)))) :=
  (PoolingBatcher.emitPools B σ
    (Batcher._group_iterE (B * P) key items)).map fun r =>
      r.map zip_dicts

/-- The sort-key lambda built inside `Data._get_batches` (data.py
282-288): `lambda row: self.tensorizers[self.sort_key].sort_key(
row[self.sort_key])`.  Building the closure performs no lookup; each CALL
evaluates `self.tensorizers[self.sort_key]` first and then
`row[self.sort_key]`, raising KeyError when either name is missing. -/
def Data.sortKeyFn {K V : Type} [DecidableEq K]
    (tensorizers : List (K × (V → Int))) (sk : K) :
    Row K V → Except PyErr Int := fun row =>
  match List.find? (fun p => decide (p.1 = sk)) tensorizers with
  | none => .error .keyError
  | some p =>
    match List.find? (fun q => decide (q.1 = sk)) row with
    | none => .error .keyError
    | some q => .ok (p.2 q.2)

theorem sortKeyFn_missing {K V : Type} [DecidableEq K]
    (tensorizers : List (K × (V → Int))) (sk : K)
    (hsk : List.find? (fun p => decide (p.1 = sk)) tensorizers = none)
    (row : Row K V) :
    Data.sortKeyFn tensorizers sk row = .error PyErr.keyError := by
  unfold Data.sortKeyFn
  rw [hsk]

/-- A `Data` instance whose batcher is the sorted PoolingBatcher pipeline
with the configured sort-key name `sk`, a static row source, identity
per-row numberize, caching on, no epoch bound. -/
def sortKeyConfig {K V : Type} [DecidableEq K]
    (tensorizers : List (K × (V → Int))) (sk : K) (B P : Nat)
    (σ : List Nat → List Nat) (rows : List (Row K V)) :
    DataConfig (Row K V) (Row K V) (List (K × List (Option V))) PyErr :=
  ⟨fun _ _ => rows, Except.ok,
    PoolingBatcher.batchifyE B P σ (Data.sortKeyFn tensorizers sk),
    none, true⟩

theorem sortGroupE_error (key : α → Except E Int) (e : E)
    (hkey : ∀ r, key r = .error e) (x : α) (g : List α) :
    sortGroupE key (x :: g) = .error e := by
  simp [sortGroupE, mapE, hkey, Except.map]

theorem drainCursor_head_error (es : Option Nat) (it : Bool) (e : E)
    (rest : List (Except E B)) (c : Nat) :
    Data.drainCursor es it (.error e :: rest) c
      = ([], c, rest, .raised e) := rfl

/-- With a sort key whose every application raises KeyError and a
non-empty row stream, the sorted pooling pipeline is a stream whose first
pull raises (and nothing follows). -/
theorem batchifyE_key_error {K V : Type} [DecidableEq K] (B P : Nat)
    (hBP : 0 < B * P) (σ : List Nat → List Nat)
    (key : Row K V → Except PyErr Int) (rows : List (Row K V))
    (hrows : rows ≠ []) (hkey : ∀ r, key r = .error PyErr.keyError) :
    PoolingBatcher.batchifyE B P σ key (rows.map Except.ok)
      = [.error PyErr.keyError] := by
  obtain ⟨r, rs, rfl⟩ : ∃ r rs, rows = r :: rs := by
    rcases rows with _ | ⟨r, rs⟩
    · exact absurd rfl hrows
    · exact ⟨r, rs, rfl⟩
  obtain ⟨m, hm⟩ : ∃ m, B * P = m + 1 := ⟨B * P - 1, by omega⟩
  unfold PoolingBatcher.batchifyE Batcher._group_iterE
  rw [chunks_cons (B * P) (by omega) _ (by simp), hm]
  simp only [List.map_cons, List.take_succ_cons]
  have hseq : exceptSeq (Except.ok r :: List.take m
      (rs.map (Except.ok : Row K V → Except PyErr (Row K V))))
      = Except.ok (r :: rs.take m) := by
    have h2 : List.take m (rs.map (Except.ok :
        Row K V → Except PyErr (Row K V)))
        = (rs.take m).map Except.ok := (List.map_take _ _ _).symm
    rw [h2]
    exact exceptSeq_map_ok (r :: rs.take m)
  simp only [hseq]
  rw [sortGroupE_error key PyErr.keyError hkey]
  rfl

/-- C6 amended: the claim's fail-fast is not what the code does.  With a
sort-key field name missing from the configured tensorizers, deriving the
batch stream SUCCEEDS — `_get_batches` only builds closures and lazy
generators, so no lookup runs at construction — and the KeyError surfaces
on the first batch pull (before any batch is emitted): the cursor's first
element is the raise.  An invocation that iterates the stream therefore
aborts with KeyError having yielded no batch. -/
theorem claim_C6_amended {K V : Type} [DecidableEq K]
    (tensorizers : List (K × (V → Int))) (sk : K) (B P : Nat)
    (σ : List Nat → List Nat) (rows : List (Row K V)) (hB : 0 < B)
    (hP : 0 < P)
    (hsk : List.find? (fun p => decide (p.1 = sk)) tensorizers = none)
    (hrows : rows ≠ []) :
    ((Data._get_batches (sortKeyConfig tensorizers sk B P σ rows)
        Stage.EVAL dataInit).1).toOption.map List.head?
      = some (some (.error PyErr.keyError)) ∧
    ∃ serr : DataState (Row K V) (List (K × List (Option V))) PyErr,
      Data.batches (sortKeyConfig tensorizers sk B P σ rows)
        Stage.EVAL 1 dataInit = some ([], .error PyErr.keyError, serr) := by
  have hnum : Data.numberize_rows (sortKeyConfig tensorizers sk B P σ rows)
      (rows) = .ok rows := mapE_ok rows
  have hget := get_batches_cache_miss (sortKeyConfig tensorizers sk B P σ rows)
    Stage.EVAL dataInit rows rfl rfl rfl hnum
  have hcur : (sortKeyConfig tensorizers sk B P σ rows).mkCursor
      (rows.map Except.ok) = [.error PyErr.keyError] :=
    batchifyE_key_error B P (Nat.mul_pos hB hP) σ _ rows hrows
      (sortKeyFn_missing tensorizers sk hsk)
  rw [hcur] at hget
  constructor
  · rw [hget]
    rfl
  · refine ⟨(((dataInit.bumpRead Stage.EVAL).setCache Stage.EVAL
      (some rows)).setBatch Stage.EVAL
      (some [Except.error PyErr.keyError])).setBatch Stage.EVAL (some []), ?_⟩
    show Data.whileBatches (sortKeyConfig tensorizers sk B P σ rows)
      Stage.EVAL 1 0 dataInit = _
    simp only [Data.whileBatches, hget]
    rfl

/-- One tensorizer named `0` (identity sort key on Int values). -/
def tensC6 : List (Nat × (Int → Int)) := [(0, fun v => v)]

/-- Counterexample to C6 as stated: with the sort-key name `1` absent from
the tensorizers, building the batch stream for a non-empty row stream
SUCCEEDS (`_get_batches` returns an ok cursor, refuting failure at
batch-construction time); the KeyError is only the first PULL of that
cursor.  And with an empty row stream the misconfiguration is never
discovered at all: the invocation completes with no error and no
batches. -/
theorem claim_C6_cex :
    ((Data._get_batches (sortKeyConfig tensC6 1 1 1 id
        [[((0 : Nat), (5 : Int))]]) Stage.EVAL dataInit).1).toOption.isSome
      = true ∧
    ((Data._get_batches (sortKeyConfig tensC6 1 1 1 id
        [[((0 : Nat), (5 : Int))]]) Stage.EVAL dataInit).1).toOption.map
        List.head? = some (some (.error PyErr.keyError)) ∧
    (Data.batches (sortKeyConfig tensC6 1 1 1 id ([] : List (Row Nat Int)))
        Stage.EVAL 1 dataInit).map (fun t => t.1) = some [] ∧
    (Data.batches (sortKeyConfig tensC6 1 1 1 id ([] : List (Row Nat Int)))
        Stage.EVAL 1 dataInit).map (fun t => t.2.1) = some (.ok ()) :=
  ⟨rfl, rfl, rfl, rfl⟩

/-- Witness for C6 (amended) at the concrete misconfigured instance. -/
theorem claim_C6_witness :
    ((Data._get_batches (sortKeyConfig tensC6 1 1 1 id
        [[((0 : Nat), (5 : Int))]]) Stage.EVAL dataInit).1).toOption.map
        List.head? = some (some (.error PyErr.keyError)) :=
  (claim_C6_amended tensC6 1 1 1 id [[((0 : Nat), (5 : Int))]] (by decide)
    (by decide) (by rfl) (List.cons_ne_nil _ _)).1
